import Mathlib

/-!
Verification of the DICOM-series organizer (src/src/hooks/useDicomParser.ts and
src/utils/cornerstoneInit.ts) against its natural-language specification.

Modelling conventions:
* JavaScript numbers are idealized as real numbers; integer-valued tags as Nat.
* The external dicom-parser library is modelled by a DataSet record carrying the
  observable results of its accessors: elements(tag) yields the element (with its
  value length in bytes, as dicom-parser reports it), float(tag, i) yields the
  i-th backslash-separated numeric component (none when the element is absent,
  the index is at or beyond the component count, or the text does not parse),
  uint16 and string likewise.
* The JavaScript truthiness idiom x || d is rendered by the jsOr functions:
  0, NaN, the empty string, undefined and null are falsy and select the default.
* Array.prototype.sort with a key comparator is rendered as the stable
  List.mergeSort with the corresponding boolean le test.
-/

namespace DicomViewer

/-- The three anatomical viewing planes produced by the classifier. -/
inductive Plane where
  | axial
  | coronal
  | sagittal
deriving DecidableEq

/-- JS idiom v || d for an optional number: undefined, NaN and 0 are falsy. -/
noncomputable def jsOrNum (x : Option ℝ) (d : ℝ) : ℝ :=
  match x with
  | none => d
  | some v => if v = 0 then d else v

/-- JS idiom v || d for an optional unsigned integer read: undefined and 0 are falsy. -/
def jsOrNat (x : Option ℕ) (d : ℕ) : ℕ :=
  match x with
  | none => d
  | some v => if v = 0 then d else v

/-- JS idiom s || d for an optional string: undefined and the empty string are falsy. -/
def jsOrStr (x : Option String) (d : String) : String :=
  match x with
  | none => d
  | some s => if s = "" then d else s

/-- One data element of a parsed DICOM data set, as dicom-parser exposes it:
length is the length of the value field in bytes, components are the parsed
backslash-separated numeric components (none for an unparsable component). -/
structure DicomElement where
  length : ℕ
  components : List (Option ℝ)

/-- Observable behaviour of a dicom-parser data set: the elements table and the
single-valued accessors used by the source. -/
structure DataSet where
  elements : String → Option DicomElement
  uint16 : String → Option ℕ
  string : String → Option String

/-- Models dataSet.float(tag, index): undefined when the element is absent or the
index is at or beyond the component count; none also stands for NaN parses. -/
def DataSet.float (dataSet : DataSet) (tag : String) (idx : ℕ) : Option ℝ :=
  match dataSet.elements tag with
  | some element => element.components.getD idx none
  | none => none

/-- Source getImagePositionPatient: guarded by element presence and
element.length at least 3 (a byte length in dicom-parser), then three
per-component reads each with the JS fallback to 0. -/
noncomputable def getImagePositionPatient (dataSet : DataSet) : List ℝ :=
  match dataSet.elements "x00200032" with
  | some element =>
    if 3 ≤ element.length then
      [jsOrNum (dataSet.float "x00200032" 0) 0,
       jsOrNum (dataSet.float "x00200032" 1) 0,
       jsOrNum (dataSet.float "x00200032" 2) 0]
    else [0, 0, 0]
  | none => [0, 0, 0]

/-- Source getImageOrientationPatient: guard is element.length at least 6,
six per-component reads each with the JS fallback to 0, whole-attribute
default the identity orientation. -/
noncomputable def getImageOrientationPatient (dataSet : DataSet) : List ℝ :=
  match dataSet.elements "x00200037" with
  | some element =>
    if 6 ≤ element.length then
      [jsOrNum (dataSet.float "x00200037" 0) 0,
       jsOrNum (dataSet.float "x00200037" 1) 0,
       jsOrNum (dataSet.float "x00200037" 2) 0,
       jsOrNum (dataSet.float "x00200037" 3) 0,
       jsOrNum (dataSet.float "x00200037" 4) 0,
       jsOrNum (dataSet.float "x00200037" 5) 0]
    else [1, 0, 0, 0, 1, 0]
  | none => [1, 0, 0, 0, 1, 0]

/-- Source getPixelSpacing: guard is element.length at least 2, two
per-component reads each with the JS fallback to 1, whole default [1, 1]. -/
noncomputable def getPixelSpacing (dataSet : DataSet) : List ℝ :=
  match dataSet.elements "x00280030" with
  | some element =>
    if 2 ≤ element.length then
      [jsOrNum (dataSet.float "x00280030" 0) 1,
       jsOrNum (dataSet.float "x00280030" 1) 1]
    else [1, 1]
  | none => [1, 1]

/-- One decoded slice, mirroring the DicomImage record built by parseDicomFile. -/
structure DicomImage where
  imageId : String
  instanceNumber : ℕ
  sliceLocation : ℝ
  imagePositionPatient : List ℝ
  imageOrientationPatient : List ℝ
  pixelSpacing : List ℝ
  rows : ℕ
  columns : ℕ
  bitsAllocated : ℕ
  samplesPerPixel : ℕ
  photometricInterpretation : String
  windowCenter : ℝ
  windowWidth : ℝ
  rescaleIntercept : ℝ
  rescaleSlope : ℝ

/-- Source parseDicomFile: a failed structural decode (dicomParser.parseDicom
throwing, modelled by the none case) is caught and yields null; otherwise every
field is read with its documented default. -/
noncomputable def parseDicomFile (parsed : Option DataSet) (filename : String) :
    Option DicomImage :=
  match parsed with
  | none => none
  | some dataSet => some
    { imageId := "dicom:" ++ filename
      instanceNumber := jsOrNat (dataSet.uint16 "x00200013") 0
      sliceLocation := jsOrNum (dataSet.float "x00201041" 0) 0
      imagePositionPatient := getImagePositionPatient dataSet
      imageOrientationPatient := getImageOrientationPatient dataSet
      pixelSpacing := getPixelSpacing dataSet
      rows := jsOrNat (dataSet.uint16 "x00280010") 0
      columns := jsOrNat (dataSet.uint16 "x00280011") 0
      bitsAllocated := jsOrNat (dataSet.uint16 "x00280100") 16
      samplesPerPixel := jsOrNat (dataSet.uint16 "x00280002") 1
      photometricInterpretation := jsOrStr (dataSet.string "x00280004") "MONOCHROME2"
      windowCenter := jsOrNum (dataSet.float "x00281050" 0) 0
      windowWidth := jsOrNum (dataSet.float "x00281051" 0) 0
      rescaleIntercept := jsOrNum (dataSet.float "x00281052" 0) 0
      rescaleSlope := jsOrNum (dataSet.float "x00281053" 0) 1 }

/-- Source getSeriesInstanceUID: an independent micro-decode of the series
identifier tag; a failed decode or an absent or empty string value gives null. -/
def getSeriesInstanceUID (parsed : Option DataSet) : Option String :=
  match parsed with
  | none => none
  | some dataSet =>
    match dataSet.string "x0020000e" with
    | some s => if s = "" then none else some s
    | none => none

/-- Slice normal of classifyPlanes: cross product of the row direction cosines
(components 0..2) and the column direction cosines (components 3..5). -/
def sliceNormal (iop : List ℝ) : ℝ × ℝ × ℝ :=
  let row0 := iop.getD 0 0
  let row1 := iop.getD 1 0
  let row2 := iop.getD 2 0
  let col0 := iop.getD 3 0
  let col1 := iop.getD 4 0
  let col2 := iop.getD 5 0
  (row1 * col2 - row2 * col1, row2 * col0 - row0 * col2, row0 * col1 - row1 * col0)

/-- Normalization step of classifyPlanes: divide by the magnitude when it is
positive, otherwise default to (0, 0, 1). -/
noncomputable def normalizedNormal (iop : List ℝ) : ℝ × ℝ × ℝ :=
  let normal := sliceNormal iop
  let magnitude := Real.sqrt (normal.1 ^ 2 + normal.2.1 ^ 2 + normal.2.2 ^ 2)
  if magnitude > 0 then
    (normal.1 / magnitude, normal.2.1 / magnitude, normal.2.2 / magnitude)
  else (0, 0, 1)

/-- Source isClose helper of classifyPlanes, default tolerance 0.1. -/
def isClose (a b : ℝ) (eps : ℝ := 0.1) : Prop := |a - b| < eps

noncomputable instance (a b eps : ℝ) : Decidable (isClose a b eps) :=
  inferInstanceAs (Decidable (|a - b| < eps))

/-- Per-image plane decision of classifyPlanes: the threshold tests in order
axial, coronal, sagittal, then the dominant-component branch with Math.max. -/
noncomputable def classify (iop : List ℝ) : Plane :=
  let normalized := normalizedNormal iop
  if isClose (|normalized.2.2|) 1 then Plane.axial
  else if isClose (|normalized.2.1|) 1 then Plane.coronal
  else if isClose (|normalized.1|) 1 then Plane.sagittal
  else
    let maxComponent := max (max (|normalized.1|) (|normalized.2.1|)) (|normalized.2.2|)
    if maxComponent = |normalized.2.2| then Plane.axial
    else if maxComponent = |normalized.2.1| then Plane.coronal
    else Plane.sagittal

/-- Classifier as the specification words it: same normal and thresholds, and the
oblique case assigns the plane of the largest absolute component with ties broken
toward axial, then coronal, then sagittal. -/
noncomputable def specClassify (iop : List ℝ) : Plane :=
  let n := normalizedNormal iop
  if isClose (|n.2.2|) 1 then Plane.axial
  else if isClose (|n.2.1|) 1 then Plane.coronal
  else if isClose (|n.1|) 1 then Plane.sagittal
  else if |n.1| ≤ |n.2.2| ∧ |n.2.1| ≤ |n.2.2| then Plane.axial
  else if |n.1| ≤ |n.2.1| then Plane.coronal
  else Plane.sagittal

/-- Per-image plane of classifyPlanes. The source guards the field with
img.imageOrientationPatient || [1, 0, 0, 0, 1, 0], but a JS array (even an empty
one) is truthy and the field always holds an array, so the guard never fires. -/
noncomputable def planeOf (img : DicomImage) : Plane :=
  classify img.imageOrientationPatient

/-- One primary bucket of the classification loop: the loop pushes each image,
in list order, onto the bucket selected by its plane, so a bucket is the
sublist of images whose plane is p. -/
noncomputable def primaryBucket (p : Plane) (images : List DicomImage) : List DicomImage :=
  images.filter (fun img => decide (planeOf img = p))

/-- Spatial key used by the orderBy comparator:
a.imagePositionPatient[axisIndex] || 0. An out-of-range access is undefined and
falls to 0; on a present real value the || 0 idiom is the identity. -/
def posKey (img : DicomImage) (axisIndex : ℕ) : ℝ :=
  img.imagePositionPatient.getD axisIndex 0

/-- Source orderBy: a stable ascending sort of the bucket by the plane-specific
spatial key. -/
noncomputable def orderBy (arr : List DicomImage) (axisIndex : ℕ) : List DicomImage :=
  arr.mergeSort (fun a b => decide (posKey a axisIndex ≤ posKey b axisIndex))

/-- Source sortImagesByPosition: a stable ascending sort by sliceLocation. -/
noncomputable def sortImagesByPosition (images : List DicomImage) : List DicomImage :=
  images.mergeSort (fun a b => decide (a.sliceLocation ≤ b.sliceLocation))

/-- The no-empty-plane fallback lines of classifyPlanes. Each condition reads
the lengths current at that line, so a bucket filled by an earlier fallback
line counts as non-empty in a later condition; pushing a spread copy of images
onto an empty bucket is appending it. -/
noncomputable def fallbackBuckets (images : List DicomImage) :
    List DicomImage × List DicomImage × List DicomImage :=
  let axial := primaryBucket Plane.axial images
  let coronal := primaryBucket Plane.coronal images
  let sagittal := primaryBucket Plane.sagittal images
  let axial1 :=
    if axial.length = 0 ∧ (0 < coronal.length ∨ 0 < sagittal.length) then axial ++ images
    else axial
  let coronal1 :=
    if coronal.length = 0 ∧ (0 < axial1.length ∨ 0 < sagittal.length) then coronal ++ images
    else coronal
  let sagittal1 :=
    if sagittal.length = 0 ∧ (0 < axial1.length ∨ 0 < coronal1.length) then sagittal ++ images
    else sagittal
  (axial1, coronal1, sagittal1)

/-- Source classifyPlanes: the per-image classification loop (primaryBucket),
the sequential fallback (fallbackBuckets), then the three per-plane re-sorts:
axial by position index 2, coronal by index 1, sagittal by index 0. -/
noncomputable def classifyPlanes (images : List DicomImage) :
    List DicomImage × List DicomImage × List DicomImage :=
  let buckets := fallbackBuckets images
  (orderBy buckets.1 2, orderBy buckets.2.1 1, orderBy buckets.2.2 0)

/-- The module-level byte cache of cornerstoneInit.ts (dicomDataCache). -/
def Cache : Type := String → Option (List ℕ)

/-- The cache before anything was stored. -/
def emptyCache : Cache := fun _ => none

/-- Source storeDicomData: set the entry for filename, keeping all others. -/
def storeDicomData (filename : String) (bytes : List ℕ) (cache : Cache) : Cache :=
  fun key => if key = filename then some bytes else cache key

/-- One archive entry together with the observable outcomes of the external
calls made while processing it: readOk models zipEntry.async resolving, probeOk
models the bounded dicomParser.parseDicom probe (untilTag x00020010) completing
without error, dataSet the full structural decode (none when it throws). -/
structure ZipEntry where
  name : String
  dir : Bool
  readOk : Bool
  bytes : List ℕ
  probeOk : Bool
  dataSet : Option DataSet

/-- Source signature check: bytes.length > 132 and bytes 128..131 spell DICM. -/
def hasDICM (bytes : List ℕ) : Prop :=
  132 < bytes.length ∧ bytes.getD 128 0 = 0x44 ∧ bytes.getD 129 0 = 0x49 ∧
    bytes.getD 130 0 = 0x43 ∧ bytes.getD 131 0 = 0x4d

instance (bytes : List ℕ) : Decidable (hasDICM bytes) :=
  inferInstanceAs (Decidable (132 < bytes.length ∧ bytes.getD 128 0 = 0x44 ∧
    bytes.getD 129 0 = 0x49 ∧ bytes.getD 130 0 = 0x43 ∧ bytes.getD 131 0 = 0x4d))

/-- JS String.prototype.split on a one-character separator, over the character
list: the list of pieces between separators (never empty; an empty input gives
one empty piece, a trailing separator a trailing empty piece). -/
def splitOnChar (sep : Char) : List Char → List (List Char)
  | [] => [[]]
  | c :: rest =>
    match splitOnChar sep rest with
    | [] => [[c]]
    | piece :: pieces =>
      if c = sep then [] :: piece :: pieces else (c :: piece) :: pieces

/-- Source filename.split("/").pop() || filename. The split never yields an
empty array, and a name with a trailing slash yields an empty (falsy) last
piece, in which case the whole filename is kept. -/
def justFilenameOf (filename : String) : String :=
  let lastPiece := ((splitOnChar '/' filename.data).getLast?).getD []
  if lastPiece = [] then filename else String.mk lastPiece

/-- Mutable state of one parseZipFile run: the byte cache, the flat list of
decoded images, and the insertion-ordered per-series map. -/
structure ParserState where
  cache : Cache
  dicomFiles : List DicomImage
  seriesMap : List (String × List DicomImage)

/-- JS Map update as used by the source: first insertion fixes the key order,
later images for the same series are appended to its list. -/
def mapAdd (m : List (String × List DicomImage)) (uid : String) (img : DicomImage) :
    List (String × List DicomImage) :=
  match m with
  | [] => [(uid, [img])]
  | (k, imgs) :: rest =>
    if k = uid then (k, imgs ++ [img]) :: rest else (k, imgs) :: mapAdd rest uid img

/-- The body of the per-entry loop of parseZipFile. A rejected read (the inner
try/catch) or a rejected candidate (continue) leaves the state unchanged; an
accepted entry first stores its bytes under the full path and, when different,
the basename, then decodes; a decode returning null changes nothing further; a
decoded image joins the series map only when a series identifier is recoverable. -/
noncomputable def processEntry (st : ParserState) (entry : ZipEntry) : ParserState :=
  if entry.readOk = false then st
  else if ¬ hasDICM entry.bytes ∧ entry.probeOk = false then st
  else
    let cache1 := storeDicomData entry.name entry.bytes st.cache
    let justFilename := justFilenameOf entry.name
    let cache2 :=
      if justFilename ≠ entry.name then storeDicomData justFilename entry.bytes cache1
      else cache1
    match parseDicomFile entry.dataSet justFilename with
    | some dicomImage =>
      let dicomFiles1 := st.dicomFiles ++ [dicomImage]
      match getSeriesInstanceUID entry.dataSet with
      | some seriesUID =>
        { cache := cache2, dicomFiles := dicomFiles1,
          seriesMap := mapAdd st.seriesMap seriesUID dicomImage }
      | none => { cache := cache2, dicomFiles := dicomFiles1, seriesMap := st.seriesMap }
    | none => { st with cache := cache2 }

/-- The per-entry loop of parseZipFile over the non-directory entries, in
archive enumeration order, starting from the ambient cache (the source never
clears the module-level cache). -/
noncomputable def runParser (cache0 : Cache) (entries : List ZipEntry) : ParserState :=
  (entries.filter (fun e => !e.dir)).foldl processEntry
    { cache := cache0, dicomFiles := [], seriesMap := [] }

/-- One produced series group, mirroring the object pushed by parseZipFile. -/
structure DicomSeries where
  seriesInstanceUID : String
  seriesDescription : String
  modality : String
  images : List DicomImage
  axialImages : List DicomImage
  coronalImages : List DicomImage
  sagittalImages : List DicomImage

/-- The group built for one series map entry: sortImagesByPosition sorts the
member list in place, so the images field and the classifyPlanes input are the
same sorted list. -/
noncomputable def mkGroup (seriesUID : String) (images : List DicomImage) : DicomSeries :=
  let sortedImages := sortImagesByPosition images
  let buckets := classifyPlanes sortedImages
  { seriesInstanceUID := seriesUID
    seriesDescription := "DICOM Series"
    modality := "CT"
    images := sortedImages
    axialImages := buckets.1
    coronalImages := buckets.2.1
    sagittalImages := buckets.2.2 }

/-- The series assembly loop of parseZipFile over the series map in insertion
order, keeping only non-empty member lists (which is every entry of the map). -/
noncomputable def buildSeries : List (String × List DicomImage) → List DicomSeries
  | [] => []
  | (seriesUID, images) :: rest =>
    if 0 < images.length then mkGroup seriesUID images :: buildSeries rest
    else buildSeries rest

/-- Whole run of parseZipFile on an opened archive: final cache plus either the
assembled series list or the single batch-level error thrown when it is empty. -/
noncomputable def parseZipFile (cache0 : Cache) (entries : List ZipEntry) :
    Cache × Except String (List DicomSeries) :=
  let st := runParser cache0 entries
  let out := buildSeries st.seriesMap
  (st.cache,
    if out.length = 0 then Except.error "No valid DICOM files found in the ZIP archive"
    else Except.ok out)

/-- An entry whose processing adds a member to the series map: the read
succeeds, the candidate filter accepts, the decode yields an image, and a
series identifier is recoverable. -/
def contributesBody (entry : ZipEntry) : Prop :=
  entry.readOk = true ∧
    (hasDICM entry.bytes ∨ entry.probeOk = true) ∧
    (∃ img, parseDicomFile entry.dataSet (justFilenameOf entry.name) = some img) ∧
    getSeriesInstanceUID entry.dataSet ≠ none

/-- An entry that contributes a series member: a non-directory satisfying
contributesBody. -/
def contributes (entry : ZipEntry) : Prop :=
  entry.dir = false ∧ contributesBody entry

/-- Candidate acceptance exactly as the code tests it: the entry is skipped by
continue when !hasDICM && !parsedOk, so it is accepted when that fails. -/
def candidateAccepted (bytes : List ℕ) (probeOk : Bool) : Prop :=
  ¬ (¬ hasDICM bytes ∧ probeOk = false)

/-- Candidate acceptance as the specification words it: either the signature
check (long enough, DICM magic at 128..132) or the bounded structural probe
completing without error; either alone is sufficient. -/
def specCandidate (bytes : List ℕ) (probeOk : Bool) : Prop :=
  hasDICM bytes ∨ probeOk = true

/-- The sequence of progress percentages reported by one parseZipFile run, in
order of the setLoadingProgress call sites: 0 at run start, 10 after starting
the ZIP load, 20 after enumeration, 20 + (i / n) * 60 before entry i of n, 85
before series assembly, 100 at the end (also on the empty-series error path,
whose throw comes after the final report). -/
def progressList (n : ℕ) : List ℚ :=
  [0, 10, 20] ++ (List.range n).map (fun i : ℕ => 20 + ((i : ℚ) / (n : ℚ)) * 60) ++ [85, 100]

/-- The same trace as a function of the archive: n is the number of
non-directory entries. -/
def progressTrace (entries : List ZipEntry) : List ℚ :=
  progressList (entries.filter (fun e => !e.dir)).length

/-- Number of parsed components of the element stored under a tag (0 when the
element is absent). This is the notion of component count the specification
speaks about; the source guards compare the byte length instead. -/
def componentCountOf (dataSet : DataSet) (tag : String) : ℕ :=
  match dataSet.elements tag with
  | some element => element.components.length
  | none => 0

/-- The three per-component reads of the position attribute, as the guarded
branch of getImagePositionPatient performs them. -/
noncomputable def positionComponentRead (dataSet : DataSet) : List ℝ :=
  [jsOrNum (dataSet.float "x00200032" 0) 0,
   jsOrNum (dataSet.float "x00200032" 1) 0,
   jsOrNum (dataSet.float "x00200032" 2) 0]

/-- The six per-component reads of the orientation attribute. -/
noncomputable def orientationComponentRead (dataSet : DataSet) : List ℝ :=
  [jsOrNum (dataSet.float "x00200037" 0) 0,
   jsOrNum (dataSet.float "x00200037" 1) 0,
   jsOrNum (dataSet.float "x00200037" 2) 0,
   jsOrNum (dataSet.float "x00200037" 3) 0,
   jsOrNum (dataSet.float "x00200037" 4) 0,
   jsOrNum (dataSet.float "x00200037" 5) 0]

/-- The two per-component reads of the pixel spacing attribute. -/
noncomputable def spacingComponentRead (dataSet : DataSet) : List ℝ :=
  [jsOrNum (dataSet.float "x00280030" 0) 1,
   jsOrNum (dataSet.float "x00280030" 1) 1]

/-- Claim C6 as the specification words it: each multi-valued geometric
attribute either has at least its minimum component count (3, 6, 2) and is read
in full, or the whole attribute falls back to its documented default; no third
behaviour (a partly-read attribute) is permitted. -/
noncomputable def geometricAttrsClaim (dataSet : DataSet) : Prop :=
  ((3 ≤ componentCountOf dataSet "x00200032" ∧
      getImagePositionPatient dataSet = positionComponentRead dataSet) ∨
    getImagePositionPatient dataSet = [0, 0, 0]) ∧
  ((6 ≤ componentCountOf dataSet "x00200037" ∧
      getImageOrientationPatient dataSet = orientationComponentRead dataSet) ∨
    getImageOrientationPatient dataSet = [1, 0, 0, 0, 1, 0]) ∧
  ((2 ≤ componentCountOf dataSet "x00280030" ∧
      getPixelSpacing dataSet = spacingComponentRead dataSet) ∨
    getPixelSpacing dataSet = [1, 1])

/-- Data set with an empty elements table and a series identifier: every
attribute of the decoded image takes its documented default. -/
def dsEmpty : DataSet :=
  { elements := fun _ => none
    uint16 := fun _ => none
    string := fun tag => if tag = "x0020000e" then some "s1" else none }

/-- The image parseDicomFile builds from dsEmpty under the name a.dcm. -/
def img0 : DicomImage :=
  { imageId := "dicom:a.dcm"
    instanceNumber := 0
    sliceLocation := 0
    imagePositionPatient := [0, 0, 0]
    imageOrientationPatient := [1, 0, 0, 0, 1, 0]
    pixelSpacing := [1, 1]
    rows := 0
    columns := 0
    bitsAllocated := 16
    samplesPerPixel := 1
    photometricInterpretation := "MONOCHROME2"
    windowCenter := 0
    windowWidth := 0
    rescaleIntercept := 0
    rescaleSlope := 1 }

/-- Archive entry that passes the structural probe and decodes to img0. -/
def e0 : ZipEntry :=
  { name := "a.dcm", dir := false, readOk := true, bytes := [], probeOk := true,
    dataSet := some dsEmpty }

/-- The series group assembled from the single-entry archive containing e0. -/
noncomputable def g0 : DicomSeries := mkGroup "s1" [img0]

/-- Data set whose position element holds a single component of text length 4
(for instance the value 10.0): the byte-length guard 3 <= 4 passes although
only one component exists, exhibiting a partly-read attribute. -/
def dsShort : DataSet :=
  { elements := fun tag =>
      if tag = "x00200032" then some { length := 4, components := [some 10] } else none
    uint16 := fun _ => none
    string := fun _ => none }

/-- Entry rejected by the candidate filter: no DICM marker and a failing probe. -/
def eReject : ZipEntry :=
  { name := "notes.txt", dir := false, readOk := true, bytes := [], probeOk := false,
    dataSet := none }

/-- First-run entry for the cache experiment: accepted by the probe, stored
under a.dcm, but failing the full decode. -/
def eStore1 : ZipEntry :=
  { name := "a.dcm", dir := false, readOk := true, bytes := [1, 2, 3], probeOk := true,
    dataSet := none }

/-- Second-run entry for the cache experiment, stored under b.dcm. -/
def eStore2 : ZipEntry :=
  { name := "b.dcm", dir := false, readOk := true, bytes := [4, 5], probeOk := true,
    dataSet := none }

open List

/-! Helper lemmas: concrete evaluations of the classifier. -/

lemma sliceNormal_id : sliceNormal [1, 0, 0, 0, 1, 0] = (0, 0, 1) := by
  norm_num [sliceNormal]

lemma sliceNormal_cor : sliceNormal [1, 0, 0, 0, 0, 1] = (0, -1, 0) := by
  norm_num [sliceNormal]

lemma sliceNormal_sag : sliceNormal [0, 1, 0, 0, 0, 1] = (1, 0, 0) := by
  norm_num [sliceNormal]

lemma normalizedNormal_id : normalizedNormal [1, 0, 0, 0, 1, 0] = (0, 0, 1) := by
  simp only [normalizedNormal, sliceNormal_id]
  norm_num [Real.sqrt_one]

lemma normalizedNormal_cor : normalizedNormal [1, 0, 0, 0, 0, 1] = (0, -1, 0) := by
  simp only [normalizedNormal, sliceNormal_cor]
  norm_num [Real.sqrt_one]

lemma normalizedNormal_sag : normalizedNormal [0, 1, 0, 0, 0, 1] = (1, 0, 0) := by
  simp only [normalizedNormal, sliceNormal_sag]
  norm_num [Real.sqrt_one]

lemma classify_id : classify [1, 0, 0, 0, 1, 0] = Plane.axial := by
  simp only [classify, normalizedNormal_id]
  norm_num [isClose]

lemma classify_cor : classify [1, 0, 0, 0, 0, 1] = Plane.coronal := by
  simp only [classify, normalizedNormal_cor]
  norm_num [isClose]

lemma classify_sag : classify [0, 1, 0, 0, 0, 1] = Plane.sagittal := by
  simp only [classify, normalizedNormal_sag]
  norm_num [isClose]

/-- The dominant-axis branch of the code (Math.max with equality tests against
the components, z tested first, then y, else x) picks the same plane as the
specification rule: the largest absolute component, ties broken toward axial,
then coronal, then sagittal. -/
lemma classify_eq_specClassify (iop : List ℝ) : classify iop = specClassify iop := by
  simp only [classify, specClassify]
  set n := normalizedNormal iop with hn
  by_cases h1 : isClose (|n.2.2|) 1
  · simp only [if_pos h1]
  · simp only [if_neg h1]
    by_cases h2 : isClose (|n.2.1|) 1
    · simp only [if_pos h2]
    · simp only [if_neg h2]
      by_cases h3 : isClose (|n.1|) 1
      · simp only [if_pos h3]
      · simp only [if_neg h3]
        by_cases hd : |n.1| ≤ |n.2.2| ∧ |n.2.1| ≤ |n.2.2|
        · have hmax : max (max (|n.1|) (|n.2.1|)) (|n.2.2|) = |n.2.2| :=
            max_eq_right (max_le hd.1 hd.2)
          simp only [if_pos hmax, if_pos hd]
        · have hlt : ¬ (max (|n.1|) (|n.2.1|) ≤ |n.2.2|) := fun hc =>
            hd ⟨le_trans (le_max_left _ _) hc, le_trans (le_max_right _ _) hc⟩
          have hmax : max (max (|n.1|) (|n.2.1|)) (|n.2.2|) = max (|n.1|) (|n.2.1|) :=
            max_eq_left (le_of_not_le hlt)
          have hne : ¬ (max (max (|n.1|) (|n.2.1|)) (|n.2.2|) = |n.2.2|) := by
            rw [hmax]; exact fun hc => hlt (le_of_eq hc)
          rw [if_neg hne, if_neg hd]
          by_cases h4 : |n.1| ≤ |n.2.1|
          · have hcor : max (max (|n.1|) (|n.2.1|)) (|n.2.2|) = |n.2.1| := by
              rw [hmax, max_eq_right h4]
            simp only [if_pos hcor, if_pos h4]
          · have hyx : |n.2.1| < |n.1| := lt_of_not_le h4
            have hne2 : ¬ (max (max (|n.1|) (|n.2.1|)) (|n.2.2|) = |n.2.1|) := by
              rw [hmax, max_eq_left (le_of_lt hyx)]
              exact ne_of_gt hyx
            rw [if_neg hne2, if_neg h4]

/-! Helper lemmas: key-based stable sorting. -/

lemma mergeSortKey_sorted {α : Type} (key : α → ℝ) (l : List α) :
    (l.mergeSort (fun a b => decide (key a ≤ key b))).Pairwise
      (fun a b => key a ≤ key b) := by
  have h : (l.mergeSort (fun a b => decide (key a ≤ key b))).Pairwise
      (fun a b => decide (key a ≤ key b) = true) := by
    apply List.sorted_mergeSort
    · intro a b c hab hbc
      simp only [decide_eq_true_eq] at hab hbc ⊢
      exact le_trans hab hbc
    · intro a b
      simp only [Bool.or_eq_true, decide_eq_true_eq]
      exact le_total _ _
  exact h.imp fun hab => of_decide_eq_true hab

lemma filter_mergeSortKey {α : Type} (key : α → ℝ) (p : α → Bool) (l : List α)
    (hp : ∀ x y, p x = true → p y = true → key x = key y) :
    (l.mergeSort (fun a b => decide (key a ≤ key b))).filter p = l.filter p := by
  have hpw : (l.filter p).Pairwise (fun a b => decide (key a ≤ key b) = true) := by
    apply List.pairwise_of_forall_mem_list
    intro a ha b hb
    simp only [decide_eq_true_eq]
    exact le_of_eq (hp a b (List.mem_filter.mp ha).2 (List.mem_filter.mp hb).2)
  have hstab : l.filter p <+ l.mergeSort (fun a b => decide (key a ≤ key b)) := by
    apply List.sublist_mergeSort
    · intro a b c hab hbc
      simp only [decide_eq_true_eq] at hab hbc ⊢
      exact le_trans hab hbc
    · intro a b
      simp only [Bool.or_eq_true, decide_eq_true_eq]
      exact le_total _ _
    · exact hpw
    · exact List.filter_sublist l
  have hsubf := hstab.filter p
  have hidem : (l.filter p).filter p = l.filter p := by
    simp [List.filter_filter]
  rw [hidem] at hsubf
  have hperm : (l.mergeSort (fun a b => decide (key a ≤ key b))).filter p ~ l.filter p :=
    (List.mergeSort_perm l _).filter p
  exact (hsubf.eq_of_length hperm.length_eq.symm).symm

lemma sortImagesByPosition_perm (images : List DicomImage) :
    sortImagesByPosition images ~ images := by
  unfold sortImagesByPosition
  exact List.mergeSort_perm _ _

lemma sortImagesByPosition_sorted (images : List DicomImage) :
    (sortImagesByPosition images).Pairwise
      (fun a b => a.sliceLocation ≤ b.sliceLocation) := by
  unfold sortImagesByPosition
  exact mergeSortKey_sorted (fun img => img.sliceLocation) images

lemma sortImagesByPosition_stable (images : List DicomImage) (p : DicomImage → Bool)
    (hp : ∀ x y, p x = true → p y = true → x.sliceLocation = y.sliceLocation) :
    (sortImagesByPosition images).filter p = images.filter p := by
  unfold sortImagesByPosition
  exact filter_mergeSortKey (fun img => img.sliceLocation) p images hp

lemma orderBy_perm (arr : List DicomImage) (axisIndex : ℕ) :
    orderBy arr axisIndex ~ arr := by
  unfold orderBy
  exact List.mergeSort_perm _ _

lemma orderBy_sorted (arr : List DicomImage) (axisIndex : ℕ) :
    (orderBy arr axisIndex).Pairwise
      (fun a b => posKey a axisIndex ≤ posKey b axisIndex) := by
  unfold orderBy
  exact mergeSortKey_sorted (fun img => posKey img axisIndex) arr

lemma orderBy_stable (arr : List DicomImage) (axisIndex : ℕ) (p : DicomImage → Bool)
    (hp : ∀ x y, p x = true → p y = true → posKey x axisIndex = posKey y axisIndex) :
    (orderBy arr axisIndex).filter p = arr.filter p := by
  unfold orderBy
  exact filter_mergeSortKey (fun img => posKey img axisIndex) p arr hp

/-! Helper lemmas: the primary classification partition and the fallback. -/

lemma mem_primaryBucket {p : Plane} {images : List DicomImage} {img : DicomImage} :
    img ∈ primaryBucket p images ↔ img ∈ images ∧ planeOf img = p := by
  simp [primaryBucket]

lemma primaryBucket_nil (p : Plane) : primaryBucket p [] = [] := rfl

/-- The per-image loop puts every image into exactly one primary bucket. -/
lemma primaryBuckets_perm (images : List DicomImage) :
    primaryBucket Plane.axial images ++ primaryBucket Plane.coronal images ++
      primaryBucket Plane.sagittal images ~ images := by
  have h1 := List.filter_append_perm (fun img => decide (planeOf img = Plane.axial)) images
  have h2 := List.filter_append_perm (fun img => decide (planeOf img = Plane.coronal))
    (images.filter (fun img => !(decide (planeOf img = Plane.axial))))
  rw [List.filter_filter, List.filter_filter] at h2
  have e1 : ∀ img : DicomImage,
      (decide (planeOf img = Plane.coronal) && !(decide (planeOf img = Plane.axial)))
        = decide (planeOf img = Plane.coronal) := by
    intro img; cases h : planeOf img <;> simp [h]
  have e2 : ∀ img : DicomImage,
      (!(decide (planeOf img = Plane.coronal)) && !(decide (planeOf img = Plane.axial)))
        = decide (planeOf img = Plane.sagittal) := by
    intro img; cases h : planeOf img <;> simp [h]
  simp only [e1, e2] at h2
  simp only [primaryBucket]
  calc images.filter (fun img => decide (planeOf img = Plane.axial)) ++
        images.filter (fun img => decide (planeOf img = Plane.coronal)) ++
        images.filter (fun img => decide (planeOf img = Plane.sagittal))
      = images.filter (fun img => decide (planeOf img = Plane.axial)) ++
        (images.filter (fun img => decide (planeOf img = Plane.coronal)) ++
          images.filter (fun img => decide (planeOf img = Plane.sagittal))) := by
        rw [List.append_assoc]
    _ ~ images.filter (fun img => decide (planeOf img = Plane.axial)) ++
        images.filter (fun img => !(decide (planeOf img = Plane.axial))) :=
        List.Perm.append_left _ h2
    _ ~ images := h1

/-- A non-empty image list never leaves all three primary buckets empty. -/
lemma primaryBuckets_not_all_nil {images : List DicomImage} (h : images ≠ []) :
    ¬ (primaryBucket Plane.axial images = [] ∧ primaryBucket Plane.coronal images = [] ∧
      primaryBucket Plane.sagittal images = []) := by
  rintro ⟨ha, hc, hs⟩
  have hperm := primaryBuckets_perm images
  rw [ha, hc, hs] at hperm
  exact h (hperm.symm.eq_nil)

/-- Behaviour of the three sequential fallback lines when not every primary
bucket is empty: each non-empty bucket is kept as is, and each empty bucket is
replaced by the whole image list. -/
lemma fallbackBuckets_spec (images : List DicomImage)
    (h : ¬ (primaryBucket Plane.axial images = [] ∧ primaryBucket Plane.coronal images = [] ∧
      primaryBucket Plane.sagittal images = [])) :
    ((primaryBucket Plane.axial images = [] → (fallbackBuckets images).1 = images) ∧
      (primaryBucket Plane.axial images ≠ [] →
        (fallbackBuckets images).1 = primaryBucket Plane.axial images)) ∧
    ((primaryBucket Plane.coronal images = [] → (fallbackBuckets images).2.1 = images) ∧
      (primaryBucket Plane.coronal images ≠ [] →
        (fallbackBuckets images).2.1 = primaryBucket Plane.coronal images)) ∧
    ((primaryBucket Plane.sagittal images = [] → (fallbackBuckets images).2.2 = images) ∧
      (primaryBucket Plane.sagittal images ≠ [] →
        (fallbackBuckets images).2.2 = primaryBucket Plane.sagittal images)) := by
  have himg : images ≠ [] := by
    intro hnil
    subst hnil
    exact h ⟨rfl, rfl, rfl⟩
  have himglen : 0 < images.length := List.length_pos.mpr himg
  simp only [fallbackBuckets]
  by_cases ha : primaryBucket Plane.axial images = []
  · have hcs : primaryBucket Plane.coronal images ≠ [] ∨
        primaryBucket Plane.sagittal images ≠ [] := by
      by_contra hcontra
      push_neg at hcontra
      exact h ⟨ha, hcontra.1, hcontra.2⟩
    have cond1 : (primaryBucket Plane.axial images).length = 0 ∧
        (0 < (primaryBucket Plane.coronal images).length ∨
          0 < (primaryBucket Plane.sagittal images).length) := by
      refine ⟨by rw [ha]; rfl, ?_⟩
      rcases hcs with hc | hs
      · exact Or.inl (List.length_pos.mpr hc)
      · exact Or.inr (List.length_pos.mpr hs)
    rw [if_pos cond1, ha, List.nil_append]
    refine ⟨⟨fun _ => rfl, fun hcontra => absurd rfl hcontra⟩, ?_, ?_⟩
    · by_cases hc : primaryBucket Plane.coronal images = []
      · have cond2 : (primaryBucket Plane.coronal images).length = 0 ∧
            (0 < images.length ∨ 0 < (primaryBucket Plane.sagittal images).length) :=
          ⟨by rw [hc]; rfl, Or.inl himglen⟩
        rw [if_pos cond2, hc, List.nil_append]
        exact ⟨fun _ => rfl, fun hcontra => absurd rfl hcontra⟩
      · have cond2 : ¬ ((primaryBucket Plane.coronal images).length = 0 ∧
            (0 < images.length ∨ 0 < (primaryBucket Plane.sagittal images).length)) := by
          intro hcond
          exact hc (List.length_eq_zero.mp hcond.1)
        rw [if_neg cond2]
        exact ⟨fun hcontra => absurd hcontra hc, fun _ => rfl⟩
    · by_cases hs : primaryBucket Plane.sagittal images = []
      · have cond3 : (primaryBucket Plane.sagittal images).length = 0 ∧
            (0 < images.length ∨
              0 < (if (primaryBucket Plane.coronal images).length = 0 ∧
                  (0 < images.length ∨ 0 < (primaryBucket Plane.sagittal images).length) then
                    primaryBucket Plane.coronal images ++ images
                  else primaryBucket Plane.coronal images).length) :=
          ⟨by rw [hs]; rfl, Or.inl himglen⟩
        rw [if_pos cond3, hs, List.nil_append]
        exact ⟨fun _ => rfl, fun hcontra => absurd rfl hcontra⟩
      · have cond3 : ¬ ((primaryBucket Plane.sagittal images).length = 0 ∧
            (0 < images.length ∨
              0 < (if (primaryBucket Plane.coronal images).length = 0 ∧
                  (0 < images.length ∨ 0 < (primaryBucket Plane.sagittal images).length) then
                    primaryBucket Plane.coronal images ++ images
                  else primaryBucket Plane.coronal images).length)) := by
          intro hcond
          exact hs (List.length_eq_zero.mp hcond.1)
        rw [if_neg cond3]
        exact ⟨fun hcontra => absurd hcontra hs, fun _ => rfl⟩
  · have cond1 : ¬ ((primaryBucket Plane.axial images).length = 0 ∧
        (0 < (primaryBucket Plane.coronal images).length ∨
          0 < (primaryBucket Plane.sagittal images).length)) := by
      intro hcond
      exact ha (List.length_eq_zero.mp hcond.1)
    have halen : 0 < (primaryBucket Plane.axial images).length := List.length_pos.mpr ha
    rw [if_neg cond1]
    refine ⟨⟨fun hcontra => absurd hcontra ha, fun _ => rfl⟩, ?_, ?_⟩
    · by_cases hc : primaryBucket Plane.coronal images = []
      · have cond2 : (primaryBucket Plane.coronal images).length = 0 ∧
            (0 < (primaryBucket Plane.axial images).length ∨
              0 < (primaryBucket Plane.sagittal images).length) :=
          ⟨by rw [hc]; rfl, Or.inl halen⟩
        rw [if_pos cond2, hc, List.nil_append]
        exact ⟨fun _ => rfl, fun hcontra => absurd rfl hcontra⟩
      · have cond2 : ¬ ((primaryBucket Plane.coronal images).length = 0 ∧
            (0 < (primaryBucket Plane.axial images).length ∨
              0 < (primaryBucket Plane.sagittal images).length)) := by
          intro hcond
          exact hc (List.length_eq_zero.mp hcond.1)
        rw [if_neg cond2]
        exact ⟨fun hcontra => absurd hcontra hc, fun _ => rfl⟩
    · by_cases hs : primaryBucket Plane.sagittal images = []
      · have cond3 : (primaryBucket Plane.sagittal images).length = 0 ∧
            (0 < (primaryBucket Plane.axial images).length ∨
              0 < (if (primaryBucket Plane.coronal images).length = 0 ∧
                  (0 < (primaryBucket Plane.axial images).length ∨
                    0 < (primaryBucket Plane.sagittal images).length) then
                    primaryBucket Plane.coronal images ++ images
                  else primaryBucket Plane.coronal images).length) :=
          ⟨by rw [hs]; rfl, Or.inl halen⟩
        rw [if_pos cond3, hs, List.nil_append]
        exact ⟨fun _ => rfl, fun hcontra => absurd rfl hcontra⟩
      · have cond3 : ¬ ((primaryBucket Plane.sagittal images).length = 0 ∧
            (0 < (primaryBucket Plane.axial images).length ∨
              0 < (if (primaryBucket Plane.coronal images).length = 0 ∧
                  (0 < (primaryBucket Plane.axial images).length ∨
                    0 < (primaryBucket Plane.sagittal images).length) then
                    primaryBucket Plane.coronal images ++ images
                  else primaryBucket Plane.coronal images).length)) := by
          intro hcond
          exact hs (List.length_eq_zero.mp hcond.1)
        rw [if_neg cond3]
        exact ⟨fun hcontra => absurd hcontra hs, fun _ => rfl⟩

/-! Helper lemmas: classifyPlanes. -/

lemma orderBy_ne_nil {arr : List DicomImage} {axisIndex : ℕ} (h : arr ≠ []) :
    orderBy arr axisIndex ≠ [] := by
  intro hnil
  have hp : ([] : List DicomImage) ~ arr := hnil ▸ orderBy_perm arr axisIndex
  exact h hp.symm.eq_nil

lemma classifyPlanes_fst (images : List DicomImage) :
    (classifyPlanes images).1 = orderBy (fallbackBuckets images).1 2 := rfl

lemma classifyPlanes_snd (images : List DicomImage) :
    (classifyPlanes images).2.1 = orderBy (fallbackBuckets images).2.1 1 := rfl

lemma classifyPlanes_thd (images : List DicomImage) :
    (classifyPlanes images).2.2 = orderBy (fallbackBuckets images).2.2 0 := rfl

/-- Each returned bucket is sorted ascending by its plane-specific spatial key. -/
lemma classifyPlanes_sorted (images : List DicomImage) :
    (classifyPlanes images).1.Pairwise (fun a b => posKey a 2 ≤ posKey b 2) ∧
    (classifyPlanes images).2.1.Pairwise (fun a b => posKey a 1 ≤ posKey b 1) ∧
    (classifyPlanes images).2.2.Pairwise (fun a b => posKey a 0 ≤ posKey b 0) :=
  ⟨orderBy_sorted _ 2, orderBy_sorted _ 1, orderBy_sorted _ 0⟩

/-- On a non-empty image list every returned bucket is non-empty. -/
lemma classifyPlanes_nonempty {images : List DicomImage} (himg : images ≠ []) :
    (classifyPlanes images).1 ≠ [] ∧ (classifyPlanes images).2.1 ≠ [] ∧
      (classifyPlanes images).2.2 ≠ [] := by
  have hnotall := primaryBuckets_not_all_nil himg
  obtain ⟨⟨ha1, ha2⟩, ⟨hc1, hc2⟩, ⟨hs1, hs2⟩⟩ := fallbackBuckets_spec images hnotall
  refine ⟨?_, ?_, ?_⟩
  · rw [classifyPlanes_fst]
    by_cases ha : primaryBucket Plane.axial images = []
    · rw [ha1 ha]; exact orderBy_ne_nil himg
    · rw [ha2 ha]; exact orderBy_ne_nil ha
  · rw [classifyPlanes_snd]
    by_cases hc : primaryBucket Plane.coronal images = []
    · rw [hc1 hc]; exact orderBy_ne_nil himg
    · rw [hc2 hc]; exact orderBy_ne_nil hc
  · rw [classifyPlanes_thd]
    by_cases hs : primaryBucket Plane.sagittal images = []
    · rw [hs1 hs]; exact orderBy_ne_nil himg
    · rw [hs2 hs]; exact orderBy_ne_nil hs

/-- When exactly one primary bucket is non-empty, all three returned buckets
are permutations of the whole image list. -/
lemma classifyPlanes_single_nonempty {images : List DicomImage}
    (h : (primaryBucket Plane.axial images ≠ [] ∧ primaryBucket Plane.coronal images = [] ∧
        primaryBucket Plane.sagittal images = []) ∨
      (primaryBucket Plane.axial images = [] ∧ primaryBucket Plane.coronal images ≠ [] ∧
        primaryBucket Plane.sagittal images = []) ∨
      (primaryBucket Plane.axial images = [] ∧ primaryBucket Plane.coronal images = [] ∧
        primaryBucket Plane.sagittal images ≠ [])) :
    (classifyPlanes images).1 ~ images ∧ (classifyPlanes images).2.1 ~ images ∧
      (classifyPlanes images).2.2 ~ images := by
  have hperm := primaryBuckets_perm images
  have hnotall : ¬ (primaryBucket Plane.axial images = [] ∧
      primaryBucket Plane.coronal images = [] ∧ primaryBucket Plane.sagittal images = []) := by
    rintro ⟨ha, hc, hs⟩
    rcases h with ⟨h1, -, -⟩ | ⟨-, h1, -⟩ | ⟨-, -, h1⟩
    · exact h1 ha
    · exact h1 hc
    · exact h1 hs
  obtain ⟨⟨ha1, ha2⟩, ⟨hc1, hc2⟩, ⟨hs1, hs2⟩⟩ := fallbackBuckets_spec images hnotall
  rcases h with ⟨ha, hc, hs⟩ | ⟨ha, hc, hs⟩ | ⟨ha, hc, hs⟩
  · rw [hc, hs, List.append_nil, List.append_nil] at hperm
    exact ⟨(orderBy_perm _ 2).trans ((ha2 ha).symm ▸ hperm),
      (orderBy_perm _ 1).trans ((hc1 hc).symm ▸ Perm.refl images),
      (orderBy_perm _ 0).trans ((hs1 hs).symm ▸ Perm.refl images)⟩
  · rw [ha, hs, List.nil_append, List.append_nil] at hperm
    exact ⟨(orderBy_perm _ 2).trans ((ha1 ha).symm ▸ Perm.refl images),
      (orderBy_perm _ 1).trans ((hc2 hc).symm ▸ hperm),
      (orderBy_perm _ 0).trans ((hs1 hs).symm ▸ Perm.refl images)⟩
  · rw [ha, hc, List.nil_append, List.nil_append] at hperm
    exact ⟨(orderBy_perm _ 2).trans ((ha1 ha).symm ▸ Perm.refl images),
      (orderBy_perm _ 1).trans ((hc1 hc).symm ▸ Perm.refl images),
      (orderBy_perm _ 0).trans ((hs2 hs).symm ▸ hperm)⟩

/-! Helper lemmas: the per-entry loop and series assembly. -/

lemma mapAdd_ne_nil (m : List (String × List DicomImage)) (uid : String) (img : DicomImage) :
    mapAdd m uid img ≠ [] := by
  cases m with
  | nil => simp [mapAdd]
  | cons kv rest =>
    obtain ⟨k, imgs⟩ := kv
    simp only [mapAdd]
    split <;> simp

lemma mapAdd_member_nonempty {m : List (String × List DicomImage)} {uid : String}
    {img : DicomImage} (h : ∀ kv ∈ m, kv.2 ≠ []) :
    ∀ kv ∈ mapAdd m uid img, kv.2 ≠ [] := by
  induction m with
  | nil =>
    intro kv hkv
    simp only [mapAdd, List.mem_singleton] at hkv
    subst hkv
    simp
  | cons hd rest ih =>
    obtain ⟨k, imgs⟩ := hd
    intro kv hkv
    simp only [mapAdd] at hkv
    by_cases hk : k = uid
    · rw [if_pos hk] at hkv
      rcases List.mem_cons.mp hkv with hkv | hkv
      · subst hkv; simp
      · exact h kv (List.mem_cons_of_mem _ hkv)
    · rw [if_neg hk] at hkv
      rcases List.mem_cons.mp hkv with hkv | hkv
      · subst hkv
        exact h (k, imgs) (List.mem_cons_self _ _)
      · exact ih (fun kv h' => h kv (List.mem_cons_of_mem _ h')) kv hkv

/-- A non-contributing entry leaves the series map unchanged. -/
lemma processEntry_skip {st : ParserState} {e : ZipEntry} (h : ¬ contributesBody e) :
    (processEntry st e).seriesMap = st.seriesMap := by
  unfold processEntry
  by_cases hr : e.readOk = false
  · rw [if_pos hr]
  · rw [if_neg hr]
    have hr' : e.readOk = true := by revert hr; cases e.readOk <;> simp
    by_cases hcand : ¬ hasDICM e.bytes ∧ e.probeOk = false
    · rw [if_pos hcand]
    · rw [if_neg hcand]
      have hacc : hasDICM e.bytes ∨ e.probeOk = true := by
        by_contra hcontra
        push_neg at hcontra
        exact hcand ⟨hcontra.1, by revert hcontra; cases e.probeOk <;> simp⟩
      cases hparse : parseDicomFile e.dataSet (justFilenameOf e.name) with
      | none => simp only [hparse]
      | some img =>
        cases huid : getSeriesInstanceUID e.dataSet with
        | none => simp only [hparse, huid]
        | some uid =>
          exact absurd ⟨hr', hacc, ⟨img, hparse⟩, by simp [huid]⟩ h

/-- A contributing entry extends the series map through mapAdd. -/
lemma processEntry_add {st : ParserState} {e : ZipEntry} (h : contributesBody e) :
    ∃ uid img, (processEntry st e).seriesMap = mapAdd st.seriesMap uid img := by
  obtain ⟨hr', hacc, ⟨img, hparse⟩, hne⟩ := h
  cases huid : getSeriesInstanceUID e.dataSet with
  | none => exact absurd huid hne
  | some uid =>
    refine ⟨uid, img, ?_⟩
    unfold processEntry
    rw [if_neg (by simp [hr'])]
    rw [if_neg (by
      rintro ⟨hnd, hpf⟩
      rcases hacc with hd | hp
      · exact hnd hd
      · rw [hpf] at hp; cases hp)]
    simp only [hparse, huid]

/-- The series map after one loop iteration is empty exactly when it was empty
before and the entry did not contribute a member. -/
lemma processEntry_seriesMap_nil_iff (st : ParserState) (e : ZipEntry) :
    (processEntry st e).seriesMap = [] ↔ st.seriesMap = [] ∧ ¬ contributesBody e := by
  by_cases h : contributesBody e
  · obtain ⟨uid, img, heq⟩ := @processEntry_add st e h
    rw [heq]
    simp [mapAdd_ne_nil, h]
  · rw [processEntry_skip h]
    simp [h]

lemma foldl_seriesMap_nil_iff (st : ParserState) (es : List ZipEntry) :
    ((es.foldl processEntry st).seriesMap = [] ↔
      st.seriesMap = [] ∧ ∀ e ∈ es, ¬ contributesBody e) := by
  induction es generalizing st with
  | nil => simp
  | cons e rest ih =>
    simp only [List.foldl_cons, ih, processEntry_seriesMap_nil_iff, List.mem_cons]
    constructor
    · rintro ⟨⟨hnil, hne⟩, hrest⟩
      refine ⟨hnil, ?_⟩
      intro e1 he1
      rcases he1 with he1 | he1
      · subst he1; exact hne
      · exact hrest e1 he1
    · rintro ⟨hnil, hall⟩
      exact ⟨⟨hnil, hall e (Or.inl rfl)⟩, fun e1 he1 => hall e1 (Or.inr he1)⟩

lemma runParser_seriesMap_nil_iff (cache0 : Cache) (entries : List ZipEntry) :
    ((runParser cache0 entries).seriesMap = [] ↔ ∀ e ∈ entries, ¬ contributes e) := by
  unfold runParser
  rw [foldl_seriesMap_nil_iff]
  constructor
  · rintro ⟨-, hall⟩ e he ⟨hdir, hbody⟩
    exact hall e (List.mem_filter.mpr ⟨he, by simp [hdir]⟩) hbody
  · intro hall
    refine ⟨rfl, ?_⟩
    intro e he hbody
    have hmem := List.mem_filter.mp he
    exact hall e hmem.1 ⟨by have := hmem.2; revert this; cases e.dir <;> simp, hbody⟩

lemma runParser_member_nonempty (cache0 : Cache) (entries : List ZipEntry) :
    ∀ kv ∈ (runParser cache0 entries).seriesMap, kv.2 ≠ [] := by
  unfold runParser
  generalize (entries.filter fun e => !e.dir) = es
  have hinit : ∀ kv ∈ (⟨cache0, [], []⟩ : ParserState).seriesMap, kv.2 ≠ [] := by
    intro kv hkv; cases hkv
  generalize (⟨cache0, [], []⟩ : ParserState) = st at hinit ⊢
  induction es generalizing st with
  | nil => exact hinit
  | cons e rest ih =>
    rw [List.foldl_cons]
    apply ih
    by_cases h : contributesBody e
    · obtain ⟨uid, img, heq⟩ := @processEntry_add st e h
      rw [heq]
      exact mapAdd_member_nonempty hinit
    · rw [processEntry_skip h]
      exact hinit

lemma buildSeries_nil_iff {m : List (String × List DicomImage)}
    (h : ∀ kv ∈ m, kv.2 ≠ []) : (buildSeries m = [] ↔ m = []) := by
  cases m with
  | nil => simp [buildSeries]
  | cons kv rest =>
    obtain ⟨uid, imgs⟩ := kv
    have himgs : imgs ≠ [] := h (uid, imgs) (List.mem_cons_self _ _)
    simp [buildSeries, List.length_pos.mpr himgs]

lemma mem_buildSeries {g : DicomSeries} {m : List (String × List DicomImage)}
    (hg : g ∈ buildSeries m) :
    ∃ uid imgs, (uid, imgs) ∈ m ∧ 0 < imgs.length ∧ g = mkGroup uid imgs := by
  induction m with
  | nil => cases hg
  | cons kv rest ih =>
    obtain ⟨uid, imgs⟩ := kv
    rw [buildSeries] at hg
    by_cases hlen : 0 < imgs.length
    · rw [if_pos hlen] at hg
      rcases List.mem_cons.mp hg with hg | hg
      · exact ⟨uid, imgs, List.mem_cons_self _ _, hlen, hg⟩
      · obtain ⟨u, l, hmem, hl, heq⟩ := ih hg
        exact ⟨u, l, List.mem_cons_of_mem _ hmem, hl, heq⟩
    · rw [if_neg hlen] at hg
      obtain ⟨u, l, hmem, hl, heq⟩ := ih hg
      exact ⟨u, l, List.mem_cons_of_mem _ hmem, hl, heq⟩

lemma parseZipFile_ok_eq {cache0 : Cache} {entries : List ZipEntry}
    {out : List DicomSeries} (hok : (parseZipFile cache0 entries).2 = Except.ok out) :
    out = buildSeries (runParser cache0 entries).seriesMap := by
  simp only [parseZipFile] at hok
  by_cases hlen : (buildSeries (runParser cache0 entries).seriesMap).length = 0
  · rw [if_pos hlen] at hok
    cases hok
  · rw [if_neg hlen] at hok
    exact (Except.ok.inj hok).symm

/-! Helper lemmas: concrete evaluations used by the witnesses. -/

lemma justFilename_a : justFilenameOf "a.dcm" = "a.dcm" := by decide

lemma justFilename_b : justFilenameOf "b.dcm" = "b.dcm" := by decide

lemma parse_dsEmpty : parseDicomFile (some dsEmpty) "a.dcm" = some img0 := by
  simp [parseDicomFile, dsEmpty, img0, getImagePositionPatient, getImageOrientationPatient,
    getPixelSpacing, jsOrNum, jsOrNat, jsOrStr, DataSet.float]

lemma uid_dsEmpty : getSeriesInstanceUID (some dsEmpty) = some "s1" := by
  simp [getSeriesInstanceUID, dsEmpty]

lemma planeOf_img0 : planeOf img0 = Plane.axial := by
  unfold planeOf
  have hor : img0.imageOrientationPatient = [1, 0, 0, 0, 1, 0] := rfl
  rw [hor]
  exact classify_id

lemma sort_img0 : sortImagesByPosition [img0] = [img0] := by
  simp [sortImagesByPosition]

lemma primaryBucket_img0 :
    primaryBucket Plane.axial [img0] = [img0] ∧ primaryBucket Plane.coronal [img0] = [] ∧
      primaryBucket Plane.sagittal [img0] = [] := by
  refine ⟨?_, ?_, ?_⟩ <;> simp [primaryBucket, planeOf_img0]

lemma classifyPlanes_img0 : classifyPlanes [img0] = ([img0], [img0], [img0]) := by
  obtain ⟨hpa, hpc, hps⟩ := primaryBucket_img0
  have hfb : fallbackBuckets [img0] = ([img0], [img0], [img0]) := by
    simp only [fallbackBuckets, hpa, hpc, hps]
    norm_num
  simp only [classifyPlanes, hfb]
  simp [orderBy]

lemma g0_components :
    g0.images = [img0] ∧ g0.axialImages = [img0] ∧ g0.coronalImages = [img0] ∧
      g0.sagittalImages = [img0] ∧ g0.seriesInstanceUID = "s1" := by
  simp [g0, mkGroup, sort_img0, classifyPlanes_img0]

lemma seriesMap_e0 : (runParser emptyCache [e0]).seriesMap = [("s1", [img0])] := by
  unfold runParser
  have hdir : (([e0] : List ZipEntry).filter fun e => !e.dir) = [e0] := rfl
  rw [hdir, List.foldl_cons, List.foldl_nil]
  simp [processEntry, e0, justFilename_a, parse_dsEmpty, uid_dsEmpty, hasDICM, mapAdd]

lemma parseZip_e0 : (parseZipFile emptyCache [e0]).2 = Except.ok [g0] := by
  simp only [parseZipFile, seriesMap_e0]
  simp [buildSeries, g0]

/-! Helper lemmas: the progress trace. -/

lemma progress_entry_bounds (n i : ℕ) (hi : i < n) :
    (20 : ℚ) ≤ 20 + ((i : ℚ) / (n : ℚ)) * 60 ∧
      20 + ((i : ℚ) / (n : ℚ)) * 60 ≤ 80 := by
  have hnpos : (0 : ℚ) < (n : ℚ) := by
    exact_mod_cast Nat.lt_of_le_of_lt (Nat.zero_le i) hi
  have hdiv0 : (0 : ℚ) ≤ (i : ℚ) / (n : ℚ) := by positivity
  have hdiv1 : (i : ℚ) / (n : ℚ) ≤ 1 := by
    rw [div_le_one hnpos]
    exact_mod_cast Nat.le_of_lt hi
  constructor <;> nlinarith

lemma progress_list_pairwise (n : ℕ) :
    (progressList n).Pairwise (· ≤ ·) := by
  unfold progressList
  rw [List.pairwise_append]
  refine ⟨?_, ?_, ?_⟩
  · rw [List.pairwise_append]
    refine ⟨?_, ?_, ?_⟩
    · norm_num [List.pairwise_cons]
    · rw [List.pairwise_map]
      apply List.Pairwise.imp ?_ (List.pairwise_lt_range n)
      intro i j hij
      rcases Nat.eq_zero_or_pos n with hzero | hpos
      · norm_num [hzero]
      · have hnpos : (0 : ℚ) < (n : ℚ) := by exact_mod_cast hpos
        have hcast : (i : ℚ) ≤ (j : ℚ) := by exact_mod_cast Nat.le_of_lt hij
        have hle := div_le_div_of_nonneg_right hcast (le_of_lt hnpos)
        linarith
    · intro a ha b hb
      obtain ⟨i, hi, rfl⟩ := List.mem_map.mp hb
      have hib := progress_entry_bounds n i (List.mem_range.mp hi)
      fin_cases ha <;> linarith [hib.1]
  · norm_num [List.pairwise_cons]
  · intro a ha b hb
    have hb85 : 85 ≤ b := by fin_cases hb <;> norm_num
    rcases List.mem_append.mp ha with hA | hB
    · have ha20 : a ≤ 20 := by fin_cases hA <;> norm_num
      linarith
    · obtain ⟨i, hi, rfl⟩ := List.mem_map.mp hB
      have hib := progress_entry_bounds n i (List.mem_range.mp hi)
      linarith [hib.2]

lemma progress_list_mem (n : ℕ) :
    ∀ x ∈ progressList n, 0 ≤ x ∧ x ≤ 100 := by
  unfold progressList
  intro x hx
  rcases List.mem_append.mp hx with hx | hx
  · rcases List.mem_append.mp hx with hx | hx
    · fin_cases hx <;> norm_num
    · obtain ⟨i, hi, rfl⟩ := List.mem_map.mp hx
      have hib := progress_entry_bounds n i (List.mem_range.mp hi)
      constructor <;> linarith [hib.1, hib.2]
  · fin_cases hx <;> norm_num

/-! Claim theorems. -/

/-- C1: the plane classifier computes the slice normal as the cross product of
the row vector (components 0..2) and the column vector (components 3..5),
normalizes it when its magnitude is positive and otherwise uses (0,0,1), and
returns axial when the absolute z component is within 0.1 of 1, else coronal
for y, else sagittal for x, and otherwise the plane of the largest absolute
component with ties broken toward axial, then coronal, then sagittal; being a
function it is total and deterministic, and it maps [1,0,0,0,1,0] to axial,
[1,0,0,0,0,1] to coronal, and [0,1,0,0,0,1] to sagittal. -/
theorem classify_matches_spec :
    (∀ iop : List ℝ, classify iop = specClassify iop) ∧
      classify [1, 0, 0, 0, 1, 0] = Plane.axial ∧
      classify [1, 0, 0, 0, 0, 1] = Plane.coronal ∧
      classify [0, 1, 0, 0, 0, 1] = Plane.sagittal :=
  ⟨classify_eq_specClassify, classify_id, classify_cor, classify_sag⟩

/-- C2: the images list of every produced SeriesGroup is its member list (the
series map entry accumulated in decode order) sorted ascending by
sliceLocation, and the sort is stable: any subset of images sharing one
sliceLocation value keeps its original decode order. -/
theorem seriesGroup_images_sorted_stable (cache0 : Cache) (entries : List ZipEntry)
    (out : List DicomSeries) (g : DicomSeries)
    (hok : (parseZipFile cache0 entries).2 = Except.ok out) (hg : g ∈ out) :
    ∃ members, (g.seriesInstanceUID, members) ∈ (runParser cache0 entries).seriesMap ∧
      g.images = sortImagesByPosition members ∧
      g.images ~ members ∧
      g.images.Pairwise (fun a b => a.sliceLocation ≤ b.sliceLocation) ∧
      ∀ p : DicomImage → Bool,
        (∀ x y, p x = true → p y = true → x.sliceLocation = y.sliceLocation) →
        g.images.filter p = members.filter p := by
  rw [parseZipFile_ok_eq hok] at hg
  obtain ⟨uid, imgs, hmem, hlen, hgeq⟩ := mem_buildSeries hg
  subst hgeq
  refine ⟨imgs, hmem, rfl, sortImagesByPosition_perm imgs,
    sortImagesByPosition_sorted imgs, fun p hp => sortImagesByPosition_stable imgs p hp⟩

/-- C2 witness: the single-entry archive [e0] produces the group g0, whose
images list is the stable ascending sort of its member list. -/
theorem seriesGroup_images_sorted_stable_witness :
    ∃ members, (g0.seriesInstanceUID, members) ∈ (runParser emptyCache [e0]).seriesMap ∧
      g0.images = sortImagesByPosition members ∧
      g0.images ~ members ∧
      g0.images.Pairwise (fun a b => a.sliceLocation ≤ b.sliceLocation) ∧
      ∀ p : DicomImage → Bool,
        (∀ x y, p x = true → p y = true → x.sliceLocation = y.sliceLocation) →
        g0.images.filter p = members.filter p :=
  seriesGroup_images_sorted_stable emptyCache [e0] [g0] g0 parseZip_e0
    (List.mem_singleton.mpr rfl)

/-- C3: after the fallback each of the three buckets is independently
re-sorted, stably and ascending, by its plane's spatial key (axial by position
index 2, coronal by 1, sagittal by 0): every returned bucket is sorted, the
re-sort preserves the relative order of images tied on the plane key, and
whenever at least one primary bucket is non-empty, each empty primary bucket
comes back as the entire image list re-sorted by its key (hence a permutation
of it) while each non-empty primary bucket comes back as its own content
re-sorted; consequently with exactly one non-empty primary bucket all three
returned buckets hold the same image set, each sorted by its own key. -/
theorem fallback_fills_empty_planes (images : List DicomImage) :
    ((classifyPlanes images).1.Pairwise (fun a b => posKey a 2 ≤ posKey b 2) ∧
      (classifyPlanes images).2.1.Pairwise (fun a b => posKey a 1 ≤ posKey b 1) ∧
      (classifyPlanes images).2.2.Pairwise (fun a b => posKey a 0 ≤ posKey b 0)) ∧
    (∀ (arr : List DicomImage) (axisIndex : ℕ) (p : DicomImage → Bool),
      (∀ x y, p x = true → p y = true → posKey x axisIndex = posKey y axisIndex) →
      (orderBy arr axisIndex).filter p = arr.filter p) ∧
    (¬ (primaryBucket Plane.axial images = [] ∧ primaryBucket Plane.coronal images = [] ∧
        primaryBucket Plane.sagittal images = []) →
      ((primaryBucket Plane.axial images = [] →
          (classifyPlanes images).1 = orderBy images 2) ∧
        (primaryBucket Plane.axial images ≠ [] →
          (classifyPlanes images).1 = orderBy (primaryBucket Plane.axial images) 2) ∧
        (primaryBucket Plane.coronal images = [] →
          (classifyPlanes images).2.1 = orderBy images 1) ∧
        (primaryBucket Plane.coronal images ≠ [] →
          (classifyPlanes images).2.1 = orderBy (primaryBucket Plane.coronal images) 1) ∧
        (primaryBucket Plane.sagittal images = [] →
          (classifyPlanes images).2.2 = orderBy images 0) ∧
        (primaryBucket Plane.sagittal images ≠ [] →
          (classifyPlanes images).2.2 = orderBy (primaryBucket Plane.sagittal images) 0) ∧
        (primaryBucket Plane.axial images = [] → (classifyPlanes images).1 ~ images) ∧
        (primaryBucket Plane.coronal images = [] → (classifyPlanes images).2.1 ~ images) ∧
        (primaryBucket Plane.sagittal images = [] → (classifyPlanes images).2.2 ~ images))) ∧
    (((primaryBucket Plane.axial images ≠ [] ∧ primaryBucket Plane.coronal images = [] ∧
        primaryBucket Plane.sagittal images = []) ∨
      (primaryBucket Plane.axial images = [] ∧ primaryBucket Plane.coronal images ≠ [] ∧
        primaryBucket Plane.sagittal images = []) ∨
      (primaryBucket Plane.axial images = [] ∧ primaryBucket Plane.coronal images = [] ∧
        primaryBucket Plane.sagittal images ≠ [])) →
      ((classifyPlanes images).1 ~ images ∧ (classifyPlanes images).2.1 ~ images ∧
        (classifyPlanes images).2.2 ~ images)) := by
  refine ⟨classifyPlanes_sorted images, orderBy_stable, ?_, classifyPlanes_single_nonempty⟩
  intro hnotall
  obtain ⟨⟨ha1, ha2⟩, ⟨hc1, hc2⟩, ⟨hs1, hs2⟩⟩ := fallbackBuckets_spec images hnotall
  refine ⟨?_, ?_, ?_, ?_, ?_, ?_, ?_, ?_, ?_⟩
  · intro ha
    rw [classifyPlanes_fst, ha1 ha]
  · intro ha
    rw [classifyPlanes_fst, ha2 ha]
  · intro hc
    rw [classifyPlanes_snd, hc1 hc]
  · intro hc
    rw [classifyPlanes_snd, hc2 hc]
  · intro hs
    rw [classifyPlanes_thd, hs1 hs]
  · intro hs
    rw [classifyPlanes_thd, hs2 hs]
  · intro ha
    rw [classifyPlanes_fst, ha1 ha]
    exact orderBy_perm images 2
  · intro hc
    rw [classifyPlanes_snd, hc1 hc]
    exact orderBy_perm images 1
  · intro hs
    rw [classifyPlanes_thd, hs1 hs]
    exact orderBy_perm images 0

/-- C3 witness: on the singleton list [img0], whose only non-empty primary
bucket is the axial one, the re-sort is stable under a trivial tie predicate,
the axial bucket is its own primary content re-sorted, the empty coronal bucket
is the whole list re-sorted, and all three buckets are permutations of it. -/
theorem fallback_fills_empty_planes_witness :
    (orderBy [img0] 1).filter (fun _ => false) = [img0].filter (fun _ => false) ∧
    (classifyPlanes [img0]).1 = orderBy (primaryBucket Plane.axial [img0]) 2 ∧
    (classifyPlanes [img0]).2.1 = orderBy [img0] 1 ∧
    ((classifyPlanes [img0]).1 ~ [img0] ∧ (classifyPlanes [img0]).2.1 ~ [img0] ∧
      (classifyPlanes [img0]).2.2 ~ [img0]) := by
  have h := fallback_fills_empty_planes [img0]
  have hane : primaryBucket Plane.axial [img0] ≠ [] := by
    rw [primaryBucket_img0.1]
    exact List.cons_ne_nil _ _
  have hnotall : ¬ (primaryBucket Plane.axial [img0] = [] ∧
      primaryBucket Plane.coronal [img0] = [] ∧
      primaryBucket Plane.sagittal [img0] = []) := fun hc => hane hc.1
  exact ⟨h.2.1 [img0] 1 (fun _ => false) (fun _ _ hx _ => absurd hx Bool.false_ne_true),
    (h.2.2.1 hnotall).2.1 hane,
    (h.2.2.1 hnotall).2.2.1 primaryBucket_img0.2.1,
    h.2.2.2 (Or.inl ⟨hane, primaryBucket_img0.2.1, primaryBucket_img0.2.2⟩)⟩

/-- C4: before the fallback, the primary classification partitions the image
list: the three buckets together are a permutation of it (so every image is
placed exactly once, counting multiplicity), and each bucket holds exactly the
images whose plane is its own. -/
theorem primary_classification_partitions (images : List DicomImage) :
    (primaryBucket Plane.axial images ++ primaryBucket Plane.coronal images ++
        primaryBucket Plane.sagittal images ~ images) ∧
      (∀ img, img ∈ primaryBucket Plane.axial images ↔
        img ∈ images ∧ planeOf img = Plane.axial) ∧
      (∀ img, img ∈ primaryBucket Plane.coronal images ↔
        img ∈ images ∧ planeOf img = Plane.coronal) ∧
      (∀ img, img ∈ primaryBucket Plane.sagittal images ↔
        img ∈ images ∧ planeOf img = Plane.sagittal) :=
  ⟨primaryBuckets_perm images, fun _ => mem_primaryBucket, fun _ => mem_primaryBucket,
    fun _ => mem_primaryBucket⟩

/-- C5: per-entry failures never abort the run; the batch fails with its single
descriptive error exactly when no entry contributes a series member (no
candidate, no decodable image, or no recoverable series identifier), and
otherwise it succeeds with the non-empty assembled series list. -/
theorem batch_fails_iff_no_series (cache0 : Cache) (entries : List ZipEntry) :
    ((parseZipFile cache0 entries).2 =
        Except.error "No valid DICOM files found in the ZIP archive" ↔
      ∀ e ∈ entries, ¬ contributes e) ∧
    ((parseZipFile cache0 entries).2 =
        Except.ok (buildSeries (runParser cache0 entries).seriesMap) ↔
      ∃ e ∈ entries, contributes e) ∧
    (buildSeries (runParser cache0 entries).seriesMap ≠ [] ↔
      ∃ e ∈ entries, contributes e) := by
  have hmemne := runParser_member_nonempty cache0 entries
  have hchain : buildSeries (runParser cache0 entries).seriesMap = [] ↔
      ∀ e ∈ entries, ¬ contributes e :=
    (buildSeries_nil_iff hmemne).trans (runParser_seriesMap_nil_iff cache0 entries)
  have hexists : buildSeries (runParser cache0 entries).seriesMap ≠ [] ↔
      ∃ e ∈ entries, contributes e := by
    rw [ne_eq, hchain]
    push_neg
    rfl
  refine ⟨?_, ?_, hexists⟩
  · simp only [parseZipFile]
    by_cases hlen : (buildSeries (runParser cache0 entries).seriesMap).length = 0
    · rw [if_pos hlen]
      simp only [true_iff, iff_true]
      exact hchain.mp (List.length_eq_zero.mp hlen)
    · rw [if_neg hlen]
      constructor
      · intro h; cases h
      · intro hall
        exact absurd (List.length_eq_zero.mpr (hchain.mpr hall)) hlen
  · simp only [parseZipFile]
    by_cases hlen : (buildSeries (runParser cache0 entries).seriesMap).length = 0
    · rw [if_pos hlen]
      constructor
      · intro h; cases h
      · intro hex
        exact absurd hex (by
          rw [← hexists]
          intro hne
          exact hne (List.length_eq_zero.mp hlen))
    · rw [if_neg hlen]
      simp only [true_iff, iff_true]
      exact hexists.mp (fun hnil => hlen (List.length_eq_zero.mpr hnil))

/-- C5 witness: the archive [e0] has a contributing entry, so the run succeeds
with the assembled series list. -/
theorem batch_fails_iff_no_series_witness :
    (parseZipFile emptyCache [e0]).2 =
      Except.ok (buildSeries (runParser emptyCache [e0]).seriesMap) :=
  (batch_fails_iff_no_series emptyCache [e0]).2.1.mpr
    ⟨e0, List.mem_singleton.mpr rfl,
      rfl, rfl, Or.inr rfl,
      ⟨img0, by rw [show e0.dataSet = some dsEmpty from rfl,
        show justFilenameOf e0.name = "a.dcm" from justFilename_a]; exact parse_dsEmpty⟩,
      by rw [show e0.dataSet = some dsEmpty from rfl, uid_dsEmpty]; simp⟩

/-- C6 counterexample: the data set dsShort stores a position element whose
value is a single component of byte length 4 (for instance the text 10.0); the
byte-length guard 3 <= 4 passes, so the getter returns the partly-read
[10, 0, 0], which has fewer than 3 components read from the buffer and is not
the whole-attribute default either, refuting the claim as stated. -/
theorem geometric_attrs_claim_counterexample : ¬ geometricAttrsClaim dsShort := by
  intro hclaim
  obtain ⟨hpos, -, -⟩ := hclaim
  have heval : getImagePositionPatient dsShort = [10, 0, 0] := by
    simp [getImagePositionPatient, dsShort, DataSet.float, jsOrNum]
  have hcount : componentCountOf dsShort "x00200032" = 1 := by
    simp [componentCountOf, dsShort]
  rcases hpos with ⟨hge, -⟩ | hdef
  · rw [hcount] at hge
    omega
  · rw [heval] at hdef
    have h10 : (10 : ℝ) = 0 := by
      injection hdef
    norm_num at h10

/-- C6 amended: each multi-valued geometric attribute is read when its element
exists and its byte length (dicom-parser element.length) is at least 3, 6 or 2
respectively, each of the first components falling back component-wise to its
per-component default; otherwise the whole attribute takes its documented
default. (The guard is on byte length, not component count, so an element with
enough bytes but fewer components yields a partly-read attribute.) -/
theorem geometric_attrs_byte_length_guard (dataSet : DataSet) :
    ((∃ element, dataSet.elements "x00200032" = some element ∧ 3 ≤ element.length ∧
        getImagePositionPatient dataSet = positionComponentRead dataSet) ∨
      getImagePositionPatient dataSet = [0, 0, 0]) ∧
    ((∃ element, dataSet.elements "x00200037" = some element ∧ 6 ≤ element.length ∧
        getImageOrientationPatient dataSet = orientationComponentRead dataSet) ∨
      getImageOrientationPatient dataSet = [1, 0, 0, 0, 1, 0]) ∧
    ((∃ element, dataSet.elements "x00280030" = some element ∧ 2 ≤ element.length ∧
        getPixelSpacing dataSet = spacingComponentRead dataSet) ∨
      getPixelSpacing dataSet = [1, 1]) := by
  refine ⟨?_, ?_, ?_⟩
  · cases helem : dataSet.elements "x00200032" with
    | none => right; simp [getImagePositionPatient, helem]
    | some element =>
      by_cases hlen : 3 ≤ element.length
      · left
        exact ⟨element, rfl, hlen,
          by simp [getImagePositionPatient, positionComponentRead, helem, hlen]⟩
      · right
        simp [getImagePositionPatient, helem, hlen]
  · cases helem : dataSet.elements "x00200037" with
    | none => right; simp [getImageOrientationPatient, helem]
    | some element =>
      by_cases hlen : 6 ≤ element.length
      · left
        exact ⟨element, rfl, hlen,
          by simp [getImageOrientationPatient, orientationComponentRead, helem, hlen]⟩
      · right
        simp [getImageOrientationPatient, helem, hlen]
  · cases helem : dataSet.elements "x00280030" with
    | none => right; simp [getPixelSpacing, helem]
    | some element =>
      by_cases hlen : 2 ≤ element.length
      · left
        exact ⟨element, rfl, hlen,
          by simp [getPixelSpacing, spacingComponentRead, helem, hlen]⟩
      · right
        simp [getPixelSpacing, helem, hlen]

/-- Processing eStore1 only stores its bytes under a.dcm: the candidate filter
accepts it, the basename equals the full name, and the decode fails. -/
lemma processEntry_eStore1 (st : ParserState) :
    processEntry st eStore1 =
      { st with cache := storeDicomData "a.dcm" [1, 2, 3] st.cache } := by
  unfold processEntry
  rw [if_neg (by decide)]
  rw [if_neg (by decide)]
  simp only [show eStore1.dataSet = (none : Option DataSet) from rfl,
    show eStore1.name = "a.dcm" from rfl, show eStore1.bytes = [1, 2, 3] from rfl,
    justFilename_a, parseDicomFile]
  simp

/-- Processing eStore2 only stores its bytes under b.dcm. -/
lemma processEntry_eStore2 (st : ParserState) :
    processEntry st eStore2 =
      { st with cache := storeDicomData "b.dcm" [4, 5] st.cache } := by
  unfold processEntry
  rw [if_neg (by decide)]
  rw [if_neg (by decide)]
  simp only [show eStore2.dataSet = (none : Option DataSet) from rfl,
    show eStore2.name = "b.dcm" from rfl, show eStore2.bytes = [4, 5] from rfl,
    justFilename_b, parseDicomFile]
  simp

/-- C7: the byte cache is never cleared between runs (clearDicomData has no
call site), so after a first run storing a.dcm and a second run over an archive
that only stores b.dcm, looking up a.dcm still returns the first run's bytes —
the stale entry survives, contrary to the claimed per-run invalidation. -/
theorem stale_cache_entry_survives_new_run :
    (parseZipFile (parseZipFile emptyCache [eStore1]).1 [eStore2]).1 "a.dcm" =
      some [1, 2, 3] := by
  have hr1 : (runParser emptyCache [eStore1]).cache =
      storeDicomData "a.dcm" [1, 2, 3] emptyCache := by
    unfold runParser
    rw [show (([eStore1] : List ZipEntry).filter fun e => !e.dir) = [eStore1] from rfl,
      List.foldl_cons, List.foldl_nil, processEntry_eStore1]
  have hr2 : ∀ c : Cache, (runParser c [eStore2]).cache =
      storeDicomData "b.dcm" [4, 5] c := by
    intro c
    unfold runParser
    rw [show (([eStore2] : List ZipEntry).filter fun e => !e.dir) = [eStore2] from rfl,
      List.foldl_cons, List.foldl_nil, processEntry_eStore2]
  show (runParser (runParser emptyCache [eStore1]).cache [eStore2]).cache "a.dcm" =
    some [1, 2, 3]
  rw [hr2, hr1]
  simp [storeDicomData, emptyCache]

/-- C8: the candidate filter accepts a buffer exactly when the DICM signature
check (length above 132 and the magic bytes at offsets 128..131) or the bounded
structural probe succeeds, and a buffer rejected by both checks is skipped
without any state change or error. -/
theorem candidate_filter_iff :
    (∀ (bytes : List ℕ) (probeOk : Bool),
        candidateAccepted bytes probeOk ↔ specCandidate bytes probeOk) ∧
    (∀ (st : ParserState) (e : ZipEntry), e.readOk = true →
      ¬ candidateAccepted e.bytes e.probeOk → processEntry st e = st) := by
  constructor
  · intro bytes probeOk
    unfold candidateAccepted specCandidate
    constructor
    · intro h
      by_contra hcontra
      push_neg at hcontra
      exact h ⟨hcontra.1, by revert hcontra; cases probeOk <;> simp⟩
    · rintro (hd | hp) ⟨hnd, hpf⟩
      · exact hnd hd
      · rw [hpf] at hp; cases hp
  · intro st e hr hno
    unfold processEntry
    rw [if_neg (by simp [hr])]
    rw [if_pos (not_not.mp hno)]

/-- C8 witness: a buffer with neither the DICM marker nor a successful probe
fails both checks, and processing such an entry leaves the state unchanged. -/
theorem candidate_filter_iff_witness :
    (candidateAccepted [] false ↔ specCandidate [] false) ∧
      processEntry ⟨emptyCache, [], []⟩ eReject = ⟨emptyCache, [], []⟩ :=
  ⟨candidate_filter_iff.1 [] false,
    candidate_filter_iff.2 ⟨emptyCache, [], []⟩ eReject rfl
      (not_not_intro ⟨by decide, rfl⟩)⟩

/-- C9: within a run the reported progress percentages start at 0, are
monotonically non-decreasing, and all lie in the interval from 0 to 100. -/
theorem progress_monotone_bounded (entries : List ZipEntry) :
    (progressTrace entries).head? = some 0 ∧
      List.Chain' (· ≤ ·) (progressTrace entries) ∧
      ∀ x ∈ progressTrace entries, 0 ≤ x ∧ x ≤ 100 := by
  unfold progressTrace
  refine ⟨rfl, ?_, ?_⟩
  · exact (progress_list_pairwise _).chain'
  · exact progress_list_mem _

/-- C9 witness: the trace of the empty archive starts at 0, is a
non-decreasing chain, and its member 85 lies within the bounds. -/
theorem progress_monotone_bounded_witness :
    (progressTrace []).head? = some 0 ∧
      List.Chain' (· ≤ ·) (progressTrace []) ∧
      (0 ≤ (85 : ℚ) ∧ (85 : ℚ) ≤ 100) :=
 by
  have hmem : (85 : ℚ) ∈ progressTrace [] := by norm_num [progressTrace, progressList]
  exact ⟨(progress_monotone_bounded []).1, (progress_monotone_bounded []).2.1,
    (progress_monotone_bounded []).2.2 85 hmem⟩

/-- C10: every series group of a successful run has a non-empty image list and
all three plane buckets non-empty: the total classifier fills some primary
bucket, and the fallback fills every empty one. -/
theorem all_plane_buckets_nonempty (cache0 : Cache) (entries : List ZipEntry)
    (out : List DicomSeries) (g : DicomSeries)
    (hok : (parseZipFile cache0 entries).2 = Except.ok out) (hg : g ∈ out) :
    g.images ≠ [] ∧ g.axialImages ≠ [] ∧ g.coronalImages ≠ [] ∧
      g.sagittalImages ≠ [] := by
  rw [parseZipFile_ok_eq hok] at hg
  obtain ⟨uid, imgs, hmem, hlen, hgeq⟩ := mem_buildSeries hg
  subst hgeq
  have himgs : imgs ≠ [] := by
    intro hnil
    rw [hnil] at hlen
    exact absurd hlen (by simp)
  have hsort : sortImagesByPosition imgs ≠ [] := by
    intro hnil
    have hp : ([] : List DicomImage) ~ imgs := hnil ▸ sortImagesByPosition_perm imgs
    exact himgs hp.symm.eq_nil
  have hcp := classifyPlanes_nonempty hsort
  exact ⟨hsort, hcp.1, hcp.2.1, hcp.2.2⟩

/-- C10 witness: the group produced from the archive [e0] has all four lists
non-empty. -/
theorem all_plane_buckets_nonempty_witness :
    g0.images ≠ [] ∧ g0.axialImages ≠ [] ∧ g0.coronalImages ≠ [] ∧
      g0.sagittalImages ≠ [] :=
  all_plane_buckets_nonempty emptyCache [e0] [g0] g0 parseZip_e0
    (List.mem_singleton.mpr rfl)

end DicomViewer
